import Mathlib

/-!
Verification of the netapp-deleter repository.

The repository deletes cloud NetApp accounts and everything beneath them:
`resource_deleter.delete_netapp_resources` runs one cascade over a single
account (volumes, then backup vaults with their backups, then the account
itself with a bounded retry, then the resource group), and
`app.list_and_delete_netapp_accounts` orchestrates one cascade per account
over a bounded worker pool with first-failure cancellation.

We embed the cascade as a function from oracle clients to a pair of the
list of provider calls it issues (its trace) and its outcome.  Python
exceptions are modelled by the `PyErr` type; every provider call is
"begin then block to completion", so one oracle answer per call is the
completed outcome of that call.
-/

namespace NetAppDeleter

/-- Python exception values as the cascade observes them: `indexError`
models the `IndexError` raised by `parts[4]` on a short identifier,
`notFound` models `azure.core.exceptions.ResourceNotFoundError`, and
`exc` models any other `Exception`, each carrying its `str(e)` text. -/
inductive PyErr where
  | indexError
  | notFound (msg : String)
  | exc (msg : String)
  deriving DecidableEq

/-- The text `str(e)` of a modelled exception. -/
def pyStr : PyErr → String
  | .indexError => "list index out of range"
  | .notFound m => m
  | .exc m => m

/-- Test whether `needle` starts `hay`, over character lists. -/
def charsStartWith : List Char → List Char → Bool
  | [], _ => true
  | _ :: _, [] => false
  | n :: ns, h :: hs => n == h && charsStartWith ns hs

/-- Test whether `needle` occurs contiguously in `hay`, over character lists. -/
def charsContain (needle : List Char) : List Char → Bool
  | [] => charsStartWith needle []
  | h :: hs => charsStartWith needle (h :: hs) || charsContain needle hs

/-- Python's substring test `needle in hay` for strings. -/
def pyIn (needle hay : String) : Bool :=
  charsContain needle.toList hay.toList

/-- Python's `s.lower()` restricted to ASCII, which is exact on every
response the confirmation gate compares against `"y"`. -/
def pyLower (s : String) : String :=
  String.mk (s.data.map Char.toLower)

/-- Split a character list at every occurrence of `sep`, keeping empty
groups, exactly as Python's `str.split(sep)` does on a one-character
separator.  The result is always non-empty. -/
def splitChars (sep : Char) : List Char → List (List Char)
  | [] => [[]]
  | c :: cs =>
    if c = sep then [] :: splitChars sep cs
    else
      match splitChars sep cs with
      | [] => [[c]]
      | g :: gs => (c :: g) :: gs

/-- Python's `s.split("/")`; `Char.ofNat 47` is the slash character. -/
def pySplit (s : String) : List String :=
  (splitChars (Char.ofNat 47) s.data).map fun cs => String.mk cs

/-- Python's `s.split("/")[-1]`: `pySplit` never returns `[]`, so the
default of `getLastD` is never used. -/
def lastSeg (s : String) : String :=
  (pySplit s).getLastD ""

/-- One provider call issued by the cascade, in the order the code
issues them.  Volume, backup and vault events carry the names the code
passes to the client. -/
inductive Event where
  | listPools
  | listVolumes (pool : String)
  | deleteVolume (pool vol : String)
  | listVaults
  | listBackups (vault : String)
  | deleteBackup (vault backup : String)
  | deleteVault (vault : String)
  | getVault (vault : String)
  | deleteAccount (attempt : Nat)
  | sleepEv (secs : Nat)
  | deleteResourceGroup
  deriving DecidableEq

/-- The cascade stage an event belongs to: 1 = volumes, 2 = backup
vaults and backups, 3 = account deletion with retry, 4 = resource
group. -/
def Event.stage : Event → Nat
  | .listPools => 1
  | .listVolumes _ => 1
  | .deleteVolume _ _ => 1
  | .listVaults => 2
  | .listBackups _ => 2
  | .deleteBackup _ _ => 2
  | .deleteVault _ => 2
  | .getVault _ => 2
  | .deleteAccount _ => 3
  | .sleepEv _ => 3
  | .deleteResourceGroup => 4

/-- The vault a stage-2 per-vault event refers to, if any. -/
def Event.vaultOf : Event → Option String
  | .listBackups v => some v
  | .deleteBackup v _ => some v
  | .deleteVault v => some v
  | .getVault v => some v
  | _ => none

/-- Oracle model of the NetApp management client.  Each field is the
completed outcome of the corresponding blocking client call
(`begin_delete(...)` followed by `poller.result()` collapses to one
answer).  `accounts_begin_delete` additionally takes the retry-attempt
index, so repeated delete attempts on the same account may observe
different provider answers. -/
structure NetAppClient where
  pools_list : String → String → Except PyErr (List String)
  volumes_list : String → String → String → Except PyErr (List String)
  volumes_begin_delete : String → String → String → String → Except PyErr Unit
  backup_vaults_list_by_net_app_account : String → String → Except PyErr (List String)
  backups_list_by_vault : String → String → String → Except PyErr (List String)
  backups_begin_delete : String → String → String → String → Except PyErr Unit
  backup_vaults_begin_delete : String → String → String → Except PyErr Unit
  backup_vaults_get : String → String → String → Except PyErr Unit
  accounts_begin_delete : Nat → String → String → Except PyErr Unit

/-- Oracle model of the resource management client. -/
structure ResourceClient where
  resource_groups_begin_delete : String → Except PyErr Unit

/-- Retry bound of the account-deletion stage (`max_retries = 3`). -/
def max_retries : Nat := 3

/-- Backoff interval of the account-deletion stage (`retry_delay = 30`). -/
def retry_delay : Nat := 30

/-- The specific conflict text the account-deletion retry tests for. -/
def nestedResourcesMsg : String :=
  "Cannot delete resource while nested resources exist"

/-- Message of the exception raised when a deleted vault is still
fetchable. -/
def postDeleteMsg (vault_name : String) : String :=
  "Backup vault \x27" ++ vault_name ++ "\x27 deletion failed - resource still exists"

/-- Sequence two stages: if the first raised, its exception propagates
and the second never runs; otherwise the traces concatenate. -/
def seqStage (a : List Event × Except PyErr Unit)
    (b : Unit → List Event × Except PyErr Unit) : List Event × Except PyErr Unit :=
  match a.2 with
  | .error e => (a.1, .error e)
  | .ok _ => (a.1 ++ (b ()).1, (b ()).2)

/-- The inner `for volume in volumes` loop: delete each volume, and on
the first failure re-raise (early termination). -/
def deleteVolumeList (nc : NetAppClient) (rg acct pool : String) :
    List String → List Event × Except PyErr Unit
  | [] => ([], .ok ())
  | v :: rest =>
    match nc.volumes_begin_delete rg acct pool v with
    | .error e => ([.deleteVolume pool v], .error e)
    | .ok _ =>
      (.deleteVolume pool v :: (deleteVolumeList nc rg acct pool rest).1,
       (deleteVolumeList nc rg acct pool rest).2)

/-- The `for pool in pools` loop: list the volumes of each pool and
delete them, failing fast on any error. -/
def deletePoolList (nc : NetAppClient) (rg acct : String) :
    List String → List Event × Except PyErr Unit
  | [] => ([], .ok ())
  | pool :: rest =>
    match nc.volumes_list rg acct pool with
    | .error e => ([.listVolumes pool], .error e)
    | .ok vols =>
      match (deleteVolumeList nc rg acct pool vols).2 with
      | .error e => (.listVolumes pool :: (deleteVolumeList nc rg acct pool vols).1, .error e)
      | .ok _ =>
        (.listVolumes pool :: ((deleteVolumeList nc rg acct pool vols).1 ++
          (deletePoolList nc rg acct rest).1),
         (deletePoolList nc rg acct rest).2)

/-- Stage 1 of the cascade: list all pools, then delete every volume of
every pool. -/
def volumesStage (nc : NetAppClient) (rg acct : String) : List Event × Except PyErr Unit :=
  match nc.pools_list rg acct with
  | .error e => ([.listPools], .error e)
  | .ok pools =>
    (.listPools :: (deletePoolList nc rg acct pools).1,
     (deletePoolList nc rg acct pools).2)

/-- The `for backup in backups` loop of one vault: each listed backup
carries a composite name whose suffix after the last `/` is the real
backup name. -/
def deleteBackupList (nc : NetAppClient) (rg acct vault_name : String) :
    List String → List Event × Except PyErr Unit
  | [] => ([], .ok ())
  | b :: rest =>
    match nc.backups_begin_delete rg acct vault_name (lastSeg b) with
    | .error e => ([.deleteBackup vault_name (lastSeg b)], .error e)
    | .ok _ =>
      (.deleteBackup vault_name (lastSeg b) :: (deleteBackupList nc rg acct vault_name rest).1,
       (deleteBackupList nc rg acct vault_name rest).2)

/-- Processing of one listed backup vault: derive the vault name from
the composite listing name, delete its backups, delete the vault, then
re-fetch it.  A successful fetch raises the post-delete-inconsistency
exception; a not-found fetch is the success signal; any other fetch
error propagates uncaught. -/
def processVault (nc : NetAppClient) (rg acct : String) (vault : String) :
    List Event × Except PyErr Unit :=
  match nc.backups_list_by_vault rg acct (lastSeg vault) with
  | .error e => ([.listBackups (lastSeg vault)], .error e)
  | .ok backups =>
    match (deleteBackupList nc rg acct (lastSeg vault) backups).2 with
    | .error e =>
      (.listBackups (lastSeg vault) :: (deleteBackupList nc rg acct (lastSeg vault) backups).1,
       .error e)
    | .ok _ =>
      match nc.backup_vaults_begin_delete rg acct (lastSeg vault) with
      | .error e =>
        (.listBackups (lastSeg vault) :: ((deleteBackupList nc rg acct (lastSeg vault) backups).1 ++
          [.deleteVault (lastSeg vault)]), .error e)
      | .ok _ =>
        match nc.backup_vaults_get rg acct (lastSeg vault) with
        | .ok _ =>
          (.listBackups (lastSeg vault) :: ((deleteBackupList nc rg acct (lastSeg vault) backups).1 ++
            [.deleteVault (lastSeg vault), .getVault (lastSeg vault)]),
           .error (.exc (postDeleteMsg (lastSeg vault))))
        | .error (.notFound _) =>
          (.listBackups (lastSeg vault) :: ((deleteBackupList nc rg acct (lastSeg vault) backups).1 ++
            [.deleteVault (lastSeg vault), .getVault (lastSeg vault)]), .ok ())
        | .error e =>
          (.listBackups (lastSeg vault) :: ((deleteBackupList nc rg acct (lastSeg vault) backups).1 ++
            [.deleteVault (lastSeg vault), .getVault (lastSeg vault)]), .error e)

/-- The `for vault in backup_vaults` loop, failing fast on any error. -/
def vaultLoop (nc : NetAppClient) (rg acct : String) :
    List String → List Event × Except PyErr Unit
  | [] => ([], .ok ())
  | v :: rest =>
    match (processVault nc rg acct v).2 with
    | .error e => ((processVault nc rg acct v).1, .error e)
    | .ok _ =>
      ((processVault nc rg acct v).1 ++ (vaultLoop nc rg acct rest).1,
       (vaultLoop nc rg acct rest).2)

/-- Stage 2 of the cascade: list backup vaults and process each one. -/
def vaultsStage (nc : NetAppClient) (rg acct : String) : List Event × Except PyErr Unit :=
  match nc.backup_vaults_list_by_net_app_account rg acct with
  | .error e => ([.listVaults], .error e)
  | .ok vaults =>
    (.listVaults :: (vaultLoop nc rg acct vaults).1,
     (vaultLoop nc rg acct vaults).2)

/-- The `for attempt in range(max_retries)` loop of stage 3, modelled
on the list of remaining attempt indices.  A successful delete breaks
out; the specific nested-resources conflict with attempts left sleeps
`retry_delay` and continues; any other failure re-raises the provider
error unchanged. -/
def accountAttempts (nc : NetAppClient) (rg acct : String) :
    List Nat → List Event × Except PyErr Unit
  | [] => ([], .ok ())
  | attempt :: rest =>
    match nc.accounts_begin_delete attempt rg acct with
    | .ok _ => ([.deleteAccount attempt], .ok ())
    | .error e =>
      if pyIn nestedResourcesMsg (pyStr e) ∧ attempt < max_retries - 1 then
        (.deleteAccount attempt :: .sleepEv retry_delay :: (accountAttempts nc rg acct rest).1,
         (accountAttempts nc rg acct rest).2)
      else ([.deleteAccount attempt], .error e)

/-- Stage 3 of the cascade: delete the account with the bounded retry. -/
def accountStage (nc : NetAppClient) (rg acct : String) : List Event × Except PyErr Unit :=
  accountAttempts nc rg acct (List.range max_retries)

/-- Stage 4 of the cascade: delete the enclosing resource group. -/
def resourceGroupStage (rc : ResourceClient) (rg : String) : List Event × Except PyErr Unit :=
  match rc.resource_groups_begin_delete rg with
  | .ok _ => ([.deleteResourceGroup], .ok ())
  | .error e => ([.deleteResourceGroup], .error e)

/-- The resource-group name parsed from an account identifier:
`parts[4]` of the `/`-split. -/
def rgOf (netapp_account_id : String) : String :=
  (pySplit netapp_account_id).getD 4 ""

/-- The account name parsed from an account identifier: `parts[-1]` of
the `/`-split. -/
def acctOf (netapp_account_id : String) : String :=
  (pySplit netapp_account_id).getLastD ""

/-- The full cascade `delete_netapp_resources`.  Indexing `parts[4]` on
an identifier with fewer than 5 `/`-separated segments raises an
`IndexError` before any client call; otherwise the four stages run in
order with fail-fast propagation.  The outer `try` of the source only
logs and re-raises, so it is the identity on the outcome. -/
def delete_netapp_resources (nc : NetAppClient) (rc : ResourceClient)
    (netapp_account_id : String) : List Event × Except PyErr Unit :=
  if (pySplit netapp_account_id).length ≤ 4 then ([], .error .indexError)
  else
    seqStage (volumesStage nc (rgOf netapp_account_id) (acctOf netapp_account_id)) fun _ =>
    seqStage (vaultsStage nc (rgOf netapp_account_id) (acctOf netapp_account_id)) fun _ =>
    seqStage (accountStage nc (rgOf netapp_account_id) (acctOf netapp_account_id)) fun _ =>
    resourceGroupStage rc (rgOf netapp_account_id)

/-- A discovered account as the orchestrator sees it: its display name
and its full identifier. -/
structure AccountRef where
  name : String
  id : String
  deriving DecidableEq

/-- The `for future in as_completed(...)` loop over task outcomes in
arrival-of-completion order: every success is discarded, and the first
failure is re-raised as the overall result. -/
def awaitCompletions : List (Except PyErr Unit) → Except PyErr Unit
  | [] => .ok ()
  | .ok _ :: rest => awaitCompletions rest
  | .error e :: _ => .error e

/-- Status of one worker-pool future at a given moment, as in the
`concurrent.futures` library. -/
inductive TaskStatus where
  | pending
  | running
  | finished (r : Except PyErr Unit)
  | cancelled

/-- Documented semantics of `Future.cancel()`: a not-yet-started future
becomes cancelled; a running or finished future is left untouched. -/
def futureCancel : TaskStatus → TaskStatus
  | .pending => .cancelled
  | s => s

/-- The `for f in future_to_account: f.cancel()` sweep the orchestrator
performs on the first observed failure, applied to a snapshot of every
future's status at that moment. -/
def cancelAllFutures (fs : List (String × TaskStatus)) : List (String × TaskStatus) :=
  fs.map fun p => (p.1, futureCancel p.2)

/-- The orchestrator `list_and_delete_netapp_accounts`, shallowly
embedded: the discovered accounts, the confirmation inputs and the
per-task cascade outcome are parameters, and the worker pool is
abstracted into the order in which task completions are observed.  The
result pairs the identifiers actually submitted for deletion with the
overall outcome; the empty-fleet return and the user-cancelled return
both yield success with nothing submitted. -/
def list_and_delete_netapp_accounts (netapp_accounts : List AccountRef)
    (skip_confirmation : Bool) (response : String)
    (taskResult : String → Except PyErr Unit) (completion_order : List AccountRef) :
    List String × Except PyErr Unit :=
  if netapp_accounts.isEmpty then ([], .ok ())
  else if ¬skip_confirmation ∧ pyLower response ≠ "y" then ([], .ok ())
  else (netapp_accounts.map AccountRef.id,
        awaitCompletions (completion_order.map fun a => taskResult a.id))

/-- Ordering relation between an earlier and a later trace event that the
bottom-up invariant demands: the earlier event's stage is no later, and a
vault's delete is never earlier than a backup delete inside that same
vault. -/
def vaultOrderOK (a b : Event) : Prop :=
  ∀ vn bk, a = .deleteVault vn → b ≠ .deleteBackup vn bk

/-- Conjunction of the stage ordering and the per-vault ordering, required
of every earlier/later pair of events in one cascade's trace. -/
def bottomUpOK (a b : Event) : Prop :=
  a.stage ≤ b.stage ∧ vaultOrderOK a b

/-- The trace of one fully processed vault whose backups all deleted
cleanly: the backup listing, one delete per listed backup, the vault's own
delete, and the post-delete fetch. -/
def vaultTrace (vn : String) (backups : List String) : List Event :=
  .listBackups vn ::
    ((backups.map fun b => Event.deleteBackup vn (lastSeg b)) ++
      [.deleteVault vn, .getVault vn])

/-- A well-formed account identifier used by concrete witnesses. -/
def goodId : String :=
  "/subscriptions/s1/resourceGroups/rg1/providers/Microsoft.NetApp/netAppAccounts/acct1"

/-- Provider error text containing the retryable nested-resources
conflict, used by concrete witnesses. -/
def conflictText : String :=
  "(Conflict) Cannot delete resource while nested resources exist in it"

/-- Provider error text without the conflict condition, used by concrete
witnesses. -/
def otherErrText : String := "(InternalServerError) something broke"

/-- A client fixture on which every call succeeds: one pool with one
volume, one vault with one backup, and a post-delete fetch that reports
not-found as expected. -/
def okNC : NetAppClient where
  pools_list := fun _ _ => .ok ["pool1"]
  volumes_list := fun _ _ _ => .ok ["vol1"]
  volumes_begin_delete := fun _ _ _ _ => .ok ()
  backup_vaults_list_by_net_app_account := fun _ _ => .ok ["acct1/vault1"]
  backups_list_by_vault := fun _ _ _ => .ok ["acct1/vault1/b1"]
  backups_begin_delete := fun _ _ _ _ => .ok ()
  backup_vaults_begin_delete := fun _ _ _ => .ok ()
  backup_vaults_get := fun _ _ _ => .error (.notFound "vault not found")
  accounts_begin_delete := fun _ _ _ => .ok ()

/-- A resource client fixture whose group delete succeeds. -/
def okRC : ResourceClient where
  resource_groups_begin_delete := fun _ => .ok ()

/-- Client fixture whose account delete raises the nested-resources
conflict on every attempt. -/
def allConflictNC : NetAppClient :=
  { okNC with accounts_begin_delete := fun _ _ _ => .error (.exc conflictText) }

/-- Client fixture whose account delete raises a non-conflict error. -/
def fatalErrNC : NetAppClient :=
  { okNC with accounts_begin_delete := fun _ _ _ => .error (.exc otherErrText) }

/-- Client fixture with zero pools and zero backup vaults. -/
def emptyNC : NetAppClient :=
  { okNC with
    pools_list := fun _ _ => .ok []
    backup_vaults_list_by_net_app_account := fun _ _ => .ok [] }

/-- Client fixture on which the post-delete vault fetch still succeeds,
i.e. the provider falsely reported the vault deletion complete. -/
def vaultStillThereNC : NetAppClient :=
  { okNC with backup_vaults_get := fun _ _ _ => .ok () }

/-- Task-outcome fixture for orchestrator witnesses: the task for
identifier i2 fails, every other task succeeds. -/
def failTask2 : String → Except PyErr Unit :=
  fun i => if i = "i2" then .error (.exc otherErrText) else .ok ()

theorem conflictText_retryable :
    pyIn nestedResourcesMsg (pyStr (PyErr.exc conflictText)) = true := by decide

theorem otherErrText_not_retryable :
    pyIn nestedResourcesMsg (pyStr (PyErr.exc otherErrText)) = false := by decide

theorem accountStage_all_conflict (nc : NetAppClient) (rg acct : String) (e : Nat → PyErr)
    (herr : ∀ a, a < max_retries → nc.accounts_begin_delete a rg acct = .error (e a))
    (hconf : ∀ a, a < max_retries → pyIn nestedResourcesMsg (pyStr (e a)) = true) :
    accountStage nc rg acct =
      ([.deleteAccount 0, .sleepEv retry_delay, .deleteAccount 1, .sleepEv retry_delay,
        .deleteAccount 2], .error (e 2)) := by
  have h0 := herr 0 (by norm_num [max_retries])
  have h1 := herr 1 (by norm_num [max_retries])
  have h2 := herr 2 (by norm_num [max_retries])
  have c0 := hconf 0 (by norm_num [max_retries])
  have c1 := hconf 1 (by norm_num [max_retries])
  have c2 := hconf 2 (by norm_num [max_retries])
  have hr : List.range max_retries = [0, 1, 2] := by decide
  rw [accountStage, hr]
  simp [accountAttempts, h0, h1, h2, c0, c1, c2, max_retries]

/-- C1: when the provider reports the nested-resources conflict on every
attempt of the account-deletion stage, the deleter issues exactly 3 delete
attempts, waits `retry_delay = 30` time-units between attempts 1 and 2 and
between attempts 2 and 3, and then fails: the stage trace is exactly those
five events (so no 4th attempt is ever issued) and the outcome is an
error. -/
theorem C1_account_retry_bound (nc : NetAppClient) (rg acct : String) (e : Nat → PyErr)
    (herr : ∀ a, a < max_retries → nc.accounts_begin_delete a rg acct = .error (e a))
    (hconf : ∀ a, a < max_retries → pyIn nestedResourcesMsg (pyStr (e a)) = true) :
    (accountStage nc rg acct).1 =
      [.deleteAccount 0, .sleepEv 30, .deleteAccount 1, .sleepEv 30, .deleteAccount 2] ∧
    ∃ err, (accountStage nc rg acct).2 = .error err := by
  rw [accountStage_all_conflict nc rg acct e herr hconf]
  exact ⟨rfl, e 2, rfl⟩

theorem C1_account_retry_bound_witness :
    (∀ a, a < max_retries →
      allConflictNC.accounts_begin_delete a "rg1" "acct1" = .error (.exc conflictText)) ∧
    (∀ a, a < max_retries →
      pyIn nestedResourcesMsg (pyStr (PyErr.exc conflictText)) = true) ∧
    ((accountStage allConflictNC "rg1" "acct1").1 =
      [.deleteAccount 0, .sleepEv 30, .deleteAccount 1, .sleepEv 30, .deleteAccount 2] ∧
     ∃ err, (accountStage allConflictNC "rg1" "acct1").2 = .error err) := by
  refine ⟨fun _ _ => rfl, fun _ _ => conflictText_retryable, ?_⟩
  exact C1_account_retry_bound allConflictNC "rg1" "acct1" (fun _ => .exc conflictText)
    (fun _ _ => rfl) (fun _ _ => conflictText_retryable)

/-- C6 counterexample: with the conflict persisting through every retry, the
error the stage finally raises is the provider's own conflict exception of
the last attempt, unchanged — not a converted error: the outcome equals the
very error value `allConflictNC` returns on attempt 2. -/
theorem C6_counterexample :
    (accountStage allConflictNC "rg1" "acct1").2 = .error (.exc conflictText) ∧
    allConflictNC.accounts_begin_delete 2 "rg1" "acct1" = .error (.exc conflictText) := by
  constructor
  · rw [accountStage_all_conflict allConflictNC "rg1" "acct1" (fun _ => .exc conflictText)
      (fun _ _ => rfl) (fun _ _ => conflictText_retryable)]
  · rfl

/-- C6 (amended): when the nested-resources conflict persists through all
retries, the account-deletion stage re-raises the final attempt's provider
error unchanged; no conversion to a different error value occurs. -/
theorem C6_final_error_reraised (nc : NetAppClient) (rg acct : String) (e : Nat → PyErr)
    (herr : ∀ a, a < max_retries → nc.accounts_begin_delete a rg acct = .error (e a))
    (hconf : ∀ a, a < max_retries → pyIn nestedResourcesMsg (pyStr (e a)) = true) :
    (accountStage nc rg acct).2 = .error (e 2) ∧
    nc.accounts_begin_delete 2 rg acct = .error (e 2) := by
  refine ⟨?_, herr 2 (by norm_num [max_retries])⟩
  rw [accountStage_all_conflict nc rg acct e herr hconf]

theorem C6_final_error_reraised_witness :
    (∀ a, a < max_retries →
      allConflictNC.accounts_begin_delete a "rg2" "acct2" = .error (.exc conflictText)) ∧
    (∀ a, a < max_retries →
      pyIn nestedResourcesMsg (pyStr (PyErr.exc conflictText)) = true) ∧
    ((accountStage allConflictNC "rg2" "acct2").2 = .error (.exc conflictText) ∧
     allConflictNC.accounts_begin_delete 2 "rg2" "acct2" = .error (.exc conflictText)) := by
  refine ⟨fun _ _ => rfl, fun _ _ => conflictText_retryable, ?_⟩
  exact C6_final_error_reraised allConflictNC "rg2" "acct2" (fun _ => .exc conflictText)
    (fun _ _ => rfl) (fun _ _ => conflictText_retryable)

/-- C7: during account deletion, a provider error whose text does not
contain the nested-resources conflict condition is fatal on the very attempt
where it occurs: the loop raises it at once, performing no backoff wait and
issuing no further delete attempt. -/
theorem C7_other_error_immediately_fatal (nc : NetAppClient) (rg acct : String)
    (attempt : Nat) (rest : List Nat) (err : PyErr)
    (herr : nc.accounts_begin_delete attempt rg acct = .error err)
    (hno : pyIn nestedResourcesMsg (pyStr err) = false) :
    accountAttempts nc rg acct (attempt :: rest) = ([.deleteAccount attempt], .error err) := by
  simp [accountAttempts, herr, hno]

theorem C7_other_error_immediately_fatal_witness :
    fatalErrNC.accounts_begin_delete 0 "rg1" "acct1" = .error (.exc otherErrText) ∧
    pyIn nestedResourcesMsg (pyStr (PyErr.exc otherErrText)) = false ∧
    accountAttempts fatalErrNC "rg1" "acct1" (0 :: [1, 2]) =
      ([.deleteAccount 0], .error (.exc otherErrText)) := by
  refine ⟨rfl, otherErrText_not_retryable, ?_⟩
  exact C7_other_error_immediately_fatal fatalErrNC "rg1" "acct1" 0 [1, 2]
    (.exc otherErrText) rfl otherErrText_not_retryable

/-- C3: an identifier with fewer than 5 slash-delimited segments makes the
cascade fail at the parse step, before any provider call: the trace is empty
and the outcome is the index error raised by reading the 5th segment; the
spec's MalformedIdentifier is realised as this error. -/
theorem C3_malformed_identifier (nc : NetAppClient) (rc : ResourceClient)
    (netapp_account_id : String) (h : (pySplit netapp_account_id).length < 5) :
    delete_netapp_resources nc rc netapp_account_id = ([], .error .indexError) := by
  rw [delete_netapp_resources, if_pos (Nat.lt_succ_iff.mp h)]

theorem C3_malformed_identifier_witness :
    (pySplit "a/b/c/d").length < 5 ∧
    delete_netapp_resources okNC okRC "a/b/c/d" = ([], .error .indexError) :=
  ⟨by decide, C3_malformed_identifier okNC okRC "a/b/c/d" (by decide)⟩

theorem awaitCompletions_first_error (oks rest : List (Except PyErr Unit)) (e : PyErr)
    (hoks : ∀ x ∈ oks, x = .ok ()) :
    awaitCompletions (oks ++ .error e :: rest) = .error e := by
  induction oks with
  | nil => simp [awaitCompletions]
  | cons x xs ih =>
    have hx := hoks x (by simp)
    subst hx
    simpa [awaitCompletions] using ih fun y hy => hoks y (by simp [hy])

/-- C8: with confirmation not skipped, a non-empty discovered fleet and a
response whose lowercasing is not the single letter y, the orchestrator
returns success having submitted no account for deletion, so zero delete
calls are issued. -/
theorem C8_cancel_returns_success (netapp_accounts : List AccountRef) (response : String)
    (taskResult : String → Except PyErr Unit) (completion_order : List AccountRef)
    (hne : netapp_accounts ≠ []) (hresp : pyLower response ≠ "y") :
    list_and_delete_netapp_accounts netapp_accounts false response taskResult
      completion_order = ([], .ok ()) := by
  rw [list_and_delete_netapp_accounts,
    if_neg (by simp [List.isEmpty_iff, hne]), if_pos (by simp [hresp])]

theorem C8_cancel_returns_success_witness :
    [(⟨"acct1", goodId⟩ : AccountRef)] ≠ [] ∧ pyLower "" ≠ "y" ∧
    list_and_delete_netapp_accounts [⟨"acct1", goodId⟩] false "" (fun _ => .ok ()) [] =
      ([], .ok ()) := by
  refine ⟨by simp, by decide, ?_⟩
  exact C8_cancel_returns_success [⟨"acct1", goodId⟩] "" (fun _ => .ok ()) []
    (by simp) (by decide)

/-- C10: the confirmation gate proceeds to deletion exactly when the
lowercased response is the single character y: with a non-empty fleet and
confirmation not skipped, the orchestrator submits some account if and only
if `pyLower response = "y"`; in particular Y and y proceed while yes, YES, a
response with surrounding whitespace and the empty response all cancel. -/
theorem C10_gate_iff_lower_y (netapp_accounts : List AccountRef)
    (taskResult : String → Except PyErr Unit) (completion_order : List AccountRef)
    (hne : netapp_accounts ≠ []) :
    (∀ response,
      (list_and_delete_netapp_accounts netapp_accounts false response taskResult
        completion_order).1 ≠ [] ↔ pyLower response = "y") ∧
    pyLower "Y" = "y" ∧ pyLower "y" = "y" ∧ pyLower "yes" ≠ "y" ∧
    pyLower "YES" ≠ "y" ∧ pyLower " y" ≠ "y" ∧ pyLower "y " ≠ "y" ∧
    pyLower "" ≠ "y" := by
  refine ⟨?_, by decide, by decide, by decide, by decide, by decide, by decide, by decide⟩
  intro response
  rw [list_and_delete_netapp_accounts, if_neg (by simp [List.isEmpty_iff, hne])]
  by_cases h : pyLower response = "y"
  · rw [if_neg (by simp [h])]
    simpa [h] using hne
  · rw [if_pos (by simp [h])]
    simp [h]

theorem C10_gate_iff_lower_y_witness :
    [(⟨"acct1", goodId⟩ : AccountRef)] ≠ [] ∧
    ((∀ response,
      (list_and_delete_netapp_accounts [⟨"acct1", goodId⟩] false response (fun _ => .ok ())
        []).1 ≠ [] ↔ pyLower response = "y") ∧
    pyLower "Y" = "y" ∧ pyLower "y" = "y" ∧ pyLower "yes" ≠ "y" ∧
    pyLower "YES" ≠ "y" ∧ pyLower " y" ≠ "y" ∧ pyLower "y " ≠ "y" ∧
    pyLower "" ≠ "y") := by
  refine ⟨by simp, ?_⟩
  exact C10_gate_iff_lower_y [⟨"acct1", goodId⟩] (fun _ => .ok ()) [] (by simp)

/-- C5: on a fleet run that reaches the pool, when the completion-ordered
task outcomes consist of successes followed by a first failure, the
orchestrator's overall result is exactly that first failure; and the cancel
sweep it performs over a snapshot of every future cancels exactly the tasks
that have not yet started execution — a pending future becomes cancelled
while running and finished futures are left untouched. -/
theorem C5_first_failure_cancels (netapp_accounts : List AccountRef)
    (skip_confirmation : Bool) (response : String)
    (taskResult : String → Except PyErr Unit) (completion_order : List AccountRef)
    (fs : List (String × TaskStatus)) (oks rest : List (Except PyErr Unit)) (e : PyErr)
    (hne : netapp_accounts ≠ [])
    (hgate : skip_confirmation = true ∨ pyLower response = "y")
    (hsplit : completion_order.map (fun a => taskResult a.id) = oks ++ .error e :: rest)
    (hoks : ∀ x ∈ oks, x = .ok ()) :
    (list_and_delete_netapp_accounts netapp_accounts skip_confirmation response taskResult
      completion_order).2 = .error e ∧
    (∀ n st, (n, st) ∈ fs → (n, futureCancel st) ∈ cancelAllFutures fs) ∧
    futureCancel .pending = .cancelled ∧ futureCancel .running = .running ∧
    (∀ r, futureCancel (.finished r) = .finished r) := by
  refine ⟨?_, ?_, rfl, rfl, fun _ => rfl⟩
  · rw [list_and_delete_netapp_accounts, if_neg (by simp [List.isEmpty_iff, hne]),
      if_neg (by rcases hgate with h | h <;> simp [h])]
    simpa [hsplit] using awaitCompletions_first_error oks rest e hoks
  · intro n st hmem
    exact List.mem_map_of_mem (fun p => (p.1, futureCancel p.2)) hmem

theorem C5_first_failure_cancels_witness :
    [(⟨"acct1", goodId⟩ : AccountRef), ⟨"acct2", "i2"⟩] ≠ [] ∧
    ((true : Bool) = true ∨ pyLower "" = "y") ∧
    ([(⟨"acct1", goodId⟩ : AccountRef), ⟨"acct2", "i2"⟩].map (fun a => failTask2 a.id)
      = [.ok ()] ++ .error (.exc otherErrText) :: []) ∧
    ((list_and_delete_netapp_accounts [⟨"acct1", goodId⟩, ⟨"acct2", "i2"⟩] true ""
        failTask2 [⟨"acct1", goodId⟩, ⟨"acct2", "i2"⟩]).2 = .error (.exc otherErrText) ∧
     (∀ n st, (n, st) ∈ [("acct1", TaskStatus.running), ("acct2", TaskStatus.pending)] →
        (n, futureCancel st) ∈
          cancelAllFutures [("acct1", TaskStatus.running), ("acct2", TaskStatus.pending)]) ∧
     futureCancel .pending = .cancelled ∧ futureCancel .running = .running ∧
     (∀ r, futureCancel (.finished r) = .finished r)) := by
  refine ⟨by simp, Or.inl rfl, by simp [failTask2, goodId], ?_⟩
  exact C5_first_failure_cancels [⟨"acct1", goodId⟩, ⟨"acct2", "i2"⟩] true ""
    failTask2 [⟨"acct1", goodId⟩, ⟨"acct2", "i2"⟩]
    [("acct1", TaskStatus.running), ("acct2", TaskStatus.pending)]
    [.ok ()] [] (.exc otherErrText) (by simp) (Or.inl rfl)
    (by simp [failTask2, goodId]) (by simp)

theorem deleteBackupList_all_ok (nc : NetAppClient) (rg acct vn : String)
    (backups : List String)
    (h : ∀ b ∈ backups, nc.backups_begin_delete rg acct vn (lastSeg b) = .ok ()) :
    deleteBackupList nc rg acct vn backups =
      (backups.map fun b => Event.deleteBackup vn (lastSeg b), .ok ()) := by
  induction backups with
  | nil => rfl
  | cons b rest ih =>
    have hb := h b (by simp)
    simp [deleteBackupList, hb, ih fun x hx => h x (by simp [hx])]

theorem processVault_clean (nc : NetAppClient) (rg acct v : String) (backups : List String)
    (hlist : nc.backups_list_by_vault rg acct (lastSeg v) = .ok backups)
    (hdel : ∀ b ∈ backups, nc.backups_begin_delete rg acct (lastSeg v) (lastSeg b) = .ok ())
    (hvdel : nc.backup_vaults_begin_delete rg acct (lastSeg v) = .ok ()) :
    (nc.backup_vaults_get rg acct (lastSeg v) = .ok () →
      processVault nc rg acct v =
        (vaultTrace (lastSeg v) backups, .error (.exc (postDeleteMsg (lastSeg v))))) ∧
    (∀ m, nc.backup_vaults_get rg acct (lastSeg v) = .error (.notFound m) →
      processVault nc rg acct v = (vaultTrace (lastSeg v) backups, .ok ())) := by
  have hb := deleteBackupList_all_ok nc rg acct (lastSeg v) backups hdel
  constructor
  · intro hget
    simp [processVault, hlist, hb, hvdel, hget, vaultTrace]
  · intro m hget
    simp [processVault, hlist, hb, hvdel, hget, vaultTrace]

/-- C4: after a vault's delete completes the deleter re-fetches the vault by
name.  For a vault whose backups and own delete all succeeded: if the fetch
succeeds, the vault loop stops there and the cascade fails with the
post-delete-inconsistency error (propagated as the whole vault stage's
outcome when this vault heads the listing); if the fetch raises not-found,
that vault's deletion is reported successful and the loop continues with the
remaining vaults. -/
theorem C4_post_delete_check (nc : NetAppClient) (rg acct v : String)
    (rest : List String) (backups : List String)
    (hlist : nc.backups_list_by_vault rg acct (lastSeg v) = .ok backups)
    (hdel : ∀ b ∈ backups, nc.backups_begin_delete rg acct (lastSeg v) (lastSeg b) = .ok ())
    (hvdel : nc.backup_vaults_begin_delete rg acct (lastSeg v) = .ok ()) :
    (nc.backup_vaults_get rg acct (lastSeg v) = .ok () →
      vaultLoop nc rg acct (v :: rest) =
        (vaultTrace (lastSeg v) backups, .error (.exc (postDeleteMsg (lastSeg v))))) ∧
    (∀ m, nc.backup_vaults_get rg acct (lastSeg v) = .error (.notFound m) →
      vaultLoop nc rg acct (v :: rest) =
        (vaultTrace (lastSeg v) backups ++ (vaultLoop nc rg acct rest).1,
         (vaultLoop nc rg acct rest).2)) ∧
    (nc.backup_vaults_list_by_net_app_account rg acct = .ok (v :: rest) →
      nc.backup_vaults_get rg acct (lastSeg v) = .ok () →
      vaultsStage nc rg acct =
        (.listVaults :: vaultTrace (lastSeg v) backups,
         .error (.exc (postDeleteMsg (lastSeg v))))) := by
  have hpv := processVault_clean nc rg acct v backups hlist hdel hvdel
  have hloop1 : nc.backup_vaults_get rg acct (lastSeg v) = .ok () →
      vaultLoop nc rg acct (v :: rest) =
        (vaultTrace (lastSeg v) backups, .error (.exc (postDeleteMsg (lastSeg v)))) := by
    intro hget
    rw [vaultLoop, hpv.1 hget]
  refine ⟨hloop1, ?_, ?_⟩
  · intro m hget
    rw [vaultLoop, hpv.2 m hget]
  · intro hl hget
    simp [vaultsStage, hl, hloop1 hget]

theorem C4_post_delete_check_witness :
    (vaultStillThereNC.backups_list_by_vault "rg1" "acct1" (lastSeg "acct1/vault1") =
      .ok ["acct1/vault1/b1"]) ∧
    (∀ b ∈ ["acct1/vault1/b1"],
      vaultStillThereNC.backups_begin_delete "rg1" "acct1" (lastSeg "acct1/vault1")
        (lastSeg b) = .ok ()) ∧
    (vaultStillThereNC.backup_vaults_begin_delete "rg1" "acct1" (lastSeg "acct1/vault1") =
      .ok ()) ∧
    (vaultStillThereNC.backup_vaults_get "rg1" "acct1" (lastSeg "acct1/vault1") = .ok () →
      vaultLoop vaultStillThereNC "rg1" "acct1" ["acct1/vault1"] =
        (vaultTrace (lastSeg "acct1/vault1") ["acct1/vault1/b1"],
         .error (.exc (postDeleteMsg (lastSeg "acct1/vault1"))))) := by
  refine ⟨rfl, fun b _ => rfl, rfl, ?_⟩
  exact (C4_post_delete_check vaultStillThereNC "rg1" "acct1" "acct1/vault1" []
    ["acct1/vault1/b1"] rfl (fun b _ => rfl) rfl).1

/-- C9: for an account with zero pools and zero backup vaults, the cascade
skips the volume and vault stages and proceeds directly to the account and
resource-group deletions: when those succeed, the full trace is exactly the
two listings followed by the account delete and the resource-group delete —
no volume, backup or vault delete is ever issued. -/
theorem C9_empty_hierarchy (nc : NetAppClient) (rc : ResourceClient) (id : String)
    (hwf : 4 < (pySplit id).length)
    (hpools : nc.pools_list (rgOf id) (acctOf id) = .ok [])
    (hvaults : nc.backup_vaults_list_by_net_app_account (rgOf id) (acctOf id) = .ok [])
    (hacct : nc.accounts_begin_delete 0 (rgOf id) (acctOf id) = .ok ())
    (hrg : rc.resource_groups_begin_delete (rgOf id) = .ok ()) :
    delete_netapp_resources nc rc id =
      ([.listPools, .listVaults, .deleteAccount 0, .deleteResourceGroup], .ok ()) := by
  have hr : List.range max_retries = [0, 1, 2] := by decide
  rw [delete_netapp_resources, if_neg (by omega)]
  simp [seqStage, volumesStage, vaultsStage, accountStage, resourceGroupStage,
    deletePoolList, vaultLoop, accountAttempts, hr, hpools, hvaults, hacct, hrg]

theorem C9_empty_hierarchy_witness :
    4 < (pySplit goodId).length ∧
    emptyNC.pools_list (rgOf goodId) (acctOf goodId) = .ok [] ∧
    emptyNC.backup_vaults_list_by_net_app_account (rgOf goodId) (acctOf goodId) = .ok [] ∧
    emptyNC.accounts_begin_delete 0 (rgOf goodId) (acctOf goodId) = .ok () ∧
    okRC.resource_groups_begin_delete (rgOf goodId) = .ok () ∧
    delete_netapp_resources emptyNC okRC goodId =
      ([.listPools, .listVaults, .deleteAccount 0, .deleteResourceGroup], .ok ()) := by
  refine ⟨by decide, rfl, rfl, rfl, rfl, ?_⟩
  exact C9_empty_hierarchy emptyNC okRC goodId (by decide) rfl rfl rfl rfl

theorem stage_of_vaultOf (ev : Event) (vn : String) (h : ev.vaultOf = some vn) :
    ev.stage = 2 := by
  cases ev <;> simp_all [Event.vaultOf, Event.stage]

theorem ne_deleteVault_of_stage (ev : Event) (h : ev.stage ≠ 2) (vn : String) :
    ev ≠ .deleteVault vn := by
  intro hv
  exact h (by rw [hv]; rfl)

theorem ne_deleteBackup_of_stage (ev : Event) (h : ev.stage ≠ 2) (vn bk : String) :
    ev ≠ .deleteBackup vn bk := by
  intro hv
  exact h (by rw [hv]; rfl)

theorem deleteVolumeList_stage (nc : NetAppClient) (rg acct pool : String)
    (vols : List String) :
    ∀ ev ∈ (deleteVolumeList nc rg acct pool vols).1, ev.stage = 1 := by
  induction vols with
  | nil => simp [deleteVolumeList]
  | cons v rest ih =>
    intro ev hev
    simp only [deleteVolumeList] at hev
    split at hev
    · simp at hev; subst hev; rfl
    · simp at hev
      rcases hev with rfl | hev
      · rfl
      · exact ih ev hev

theorem deletePoolList_stage (nc : NetAppClient) (rg acct : String)
    (pools : List String) :
    ∀ ev ∈ (deletePoolList nc rg acct pools).1, ev.stage = 1 := by
  induction pools with
  | nil => simp [deletePoolList]
  | cons pool rest ih =>
    intro ev hev
    simp only [deletePoolList] at hev
    split at hev
    · simp at hev; subst hev; rfl
    · split at hev
      · simp at hev
        rcases hev with rfl | hev
        · rfl
        · exact deleteVolumeList_stage nc rg acct pool _ ev hev
      · simp at hev
        rcases hev with rfl | hev | hev
        · rfl
        · exact deleteVolumeList_stage nc rg acct pool _ ev hev
        · exact ih ev hev

theorem volumesStage_stage (nc : NetAppClient) (rg acct : String) :
    ∀ ev ∈ (volumesStage nc rg acct).1, ev.stage = 1 := by
  intro ev hev
  simp only [volumesStage] at hev
  split at hev
  · simp at hev; subst hev; rfl
  · simp at hev
    rcases hev with rfl | hev
    · rfl
    · exact deletePoolList_stage nc rg acct _ ev hev

theorem deleteBackupList_shape (nc : NetAppClient) (rg acct vn : String)
    (backups : List String) :
    ∀ ev ∈ (deleteBackupList nc rg acct vn backups).1, ∃ bk, ev = .deleteBackup vn bk := by
  induction backups with
  | nil => simp [deleteBackupList]
  | cons b rest ih =>
    intro ev hev
    simp only [deleteBackupList] at hev
    split at hev
    · simp at hev; subst hev; exact ⟨lastSeg b, rfl⟩
    · simp at hev
      rcases hev with rfl | hev
      · exact ⟨lastSeg b, rfl⟩
      · exact ih ev hev

theorem processVault_vaultOf (nc : NetAppClient) (rg acct v : String) :
    ∀ ev ∈ (processVault nc rg acct v).1, ev.vaultOf = some (lastSeg v) := by
  intro ev hev
  have hTB : ∀ (bs : List String), ∀ x ∈ (deleteBackupList nc rg acct (lastSeg v) bs).1,
      Event.vaultOf x = some (lastSeg v) := by
    intro bs x hx
    obtain ⟨bk, rfl⟩ := deleteBackupList_shape nc rg acct (lastSeg v) bs x hx
    rfl
  simp only [processVault] at hev
  split at hev
  · simp at hev; subst hev; rfl
  · split at hev
    · simp at hev
      rcases hev with rfl | hev
      · rfl
      · exact hTB _ ev hev
    · split at hev
      · simp at hev
        rcases hev with rfl | hev | rfl
        · rfl
        · exact hTB _ ev hev
        · rfl
      · split at hev <;>
        · simp at hev
          rcases hev with rfl | hev | rfl | rfl
          · rfl
          · exact hTB _ ev hev
          · rfl
          · rfl

theorem vaultLoop_vaultOf (nc : NetAppClient) (rg acct : String) (vaults : List String) :
    ∀ ev ∈ (vaultLoop nc rg acct vaults).1,
      ∃ v ∈ vaults, ev.vaultOf = some (lastSeg v) := by
  induction vaults with
  | nil => simp [vaultLoop]
  | cons v rest ih =>
    intro ev hev
    simp only [vaultLoop] at hev
    split at hev
    · exact ⟨v, by simp, processVault_vaultOf nc rg acct v ev hev⟩
    · rcases List.mem_append.mp hev with hev | hev
      · exact ⟨v, by simp, processVault_vaultOf nc rg acct v ev hev⟩
      · obtain ⟨w, hw, hvo⟩ := ih ev hev
        exact ⟨w, by simp [hw], hvo⟩

theorem vaultsStage_stage (nc : NetAppClient) (rg acct : String) :
    ∀ ev ∈ (vaultsStage nc rg acct).1, ev.stage = 2 := by
  intro ev hev
  simp only [vaultsStage] at hev
  split at hev
  · simp at hev; subst hev; rfl
  · simp at hev
    rcases hev with rfl | hev
    · rfl
    · obtain ⟨w, _, hvo⟩ := vaultLoop_vaultOf nc rg acct _ ev hev
      exact stage_of_vaultOf ev (lastSeg w) hvo

theorem accountAttempts_stage (nc : NetAppClient) (rg acct : String) (l : List Nat) :
    ∀ ev ∈ (accountAttempts nc rg acct l).1, ev.stage = 3 := by
  induction l with
  | nil => simp [accountAttempts]
  | cons a rest ih =>
    intro ev hev
    simp only [accountAttempts] at hev
    split at hev
    · simp at hev; subst hev; rfl
    · split at hev
      · simp at hev
        rcases hev with rfl | rfl | hev
        · rfl
        · rfl
        · exact ih ev hev
      · simp at hev; subst hev; rfl

theorem accountStage_stage (nc : NetAppClient) (rg acct : String) :
    ∀ ev ∈ (accountStage nc rg acct).1, ev.stage = 3 :=
  accountAttempts_stage nc rg acct (List.range max_retries)

theorem accountStage_head_mem (nc : NetAppClient) (rg acct : String) :
    Event.deleteAccount 0 ∈ (accountStage nc rg acct).1 := by
  have hr : List.range max_retries = [0, 1, 2] := by decide
  rw [accountStage, hr]
  simp only [accountAttempts]
  split
  · simp
  · split <;> simp

theorem resourceGroupStage_trace (rc : ResourceClient) (rg : String) :
    (resourceGroupStage rc rg).1 = [.deleteResourceGroup] := by
  rw [resourceGroupStage]
  split <;> rfl

theorem pairwise_vaultOrder_of_no_deleteVault (tr : List Event)
    (h : ∀ ev ∈ tr, ∀ vn, ev ≠ .deleteVault vn) : tr.Pairwise vaultOrderOK := by
  refine List.pairwise_of_forall_mem_list ?_
  intro a ha b _ vn bk hav
  exact (h a ha vn hav).elim

theorem pairwise_vaultOrder_segment (vn : String) (TB sfx : List Event)
    (hTB : ∀ x ∈ TB, ∀ w, x ≠ Event.deleteVault w)
    (hsfx1 : sfx.Pairwise vaultOrderOK) :
    (Event.listBackups vn :: (TB ++ sfx)).Pairwise vaultOrderOK := by
  refine List.pairwise_cons.mpr ⟨?_, ?_⟩
  · intro b _ w bk h
    simp at h
  · refine List.pairwise_append.mpr
      ⟨pairwise_vaultOrder_of_no_deleteVault TB hTB, hsfx1, ?_⟩
    intro x hx y hy w bk hxw
    exact (hTB x hx w hxw).elim

theorem pairwise_vaultOrder_dv_gv (vn : String) :
    ([Event.deleteVault vn, Event.getVault vn] : List Event).Pairwise vaultOrderOK := by
  refine List.pairwise_cons.mpr ⟨?_, by simp [vaultOrderOK]⟩
  intro b hb w bk _
  simp at hb
  subst hb
  simp

theorem processVault_pairwise_vaultOrder (nc : NetAppClient) (rg acct v : String) :
    (processVault nc rg acct v).1.Pairwise vaultOrderOK := by
  have hTB : ∀ (bs : List String), ∀ x ∈ (deleteBackupList nc rg acct (lastSeg v) bs).1,
      ∀ w, x ≠ Event.deleteVault w := by
    intro bs x hx w
    obtain ⟨bk, rfl⟩ := deleteBackupList_shape nc rg acct (lastSeg v) bs x hx
    simp
  rw [processVault]
  split
  · simp [vaultOrderOK]
  · split
    · simpa using pairwise_vaultOrder_segment (lastSeg v) _ [] (hTB _)
        List.Pairwise.nil
    · split
      · exact pairwise_vaultOrder_segment (lastSeg v) _ _ (hTB _)
          (by simp [vaultOrderOK])
      · split <;>
        · exact pairwise_vaultOrder_segment (lastSeg v) _ _ (hTB _)
            (pairwise_vaultOrder_dv_gv (lastSeg v))

theorem vaultLoop_pairwise_vaultOrder (nc : NetAppClient) (rg acct : String) :
    ∀ vaults : List String, (vaults.map lastSeg).Nodup →
      (vaultLoop nc rg acct vaults).1.Pairwise vaultOrderOK := by
  intro vaults
  induction vaults with
  | nil => intro _; simp [vaultLoop]
  | cons v rest ih =>
    intro hnd
    rw [List.map_cons, List.nodup_cons] at hnd
    obtain ⟨hnotin, hndr⟩ := hnd
    rw [vaultLoop]
    split
    · exact processVault_pairwise_vaultOrder nc rg acct v
    · refine List.pairwise_append.mpr
        ⟨processVault_pairwise_vaultOrder nc rg acct v, ih hndr, ?_⟩
      intro x hx y hy w bk hxw hyb
      have hxv := processVault_vaultOf nc rg acct v x hx
      rw [hxw] at hxv
      simp [Event.vaultOf] at hxv
      obtain ⟨u, hu, hyu⟩ := vaultLoop_vaultOf nc rg acct rest y hy
      rw [hyb] at hyu
      simp [Event.vaultOf] at hyu
      apply hnotin
      rw [← hxv, hyu]
      exact List.mem_map_of_mem lastSeg hu

theorem vaultsStage_pairwise_vaultOrder (nc : NetAppClient) (rg acct : String)
    (hnd : ∀ vs, nc.backup_vaults_list_by_net_app_account rg acct = .ok vs →
      (vs.map lastSeg).Nodup) :
    (vaultsStage nc rg acct).1.Pairwise vaultOrderOK := by
  rw [vaultsStage]
  split
  · simp [vaultOrderOK]
  · rename_i vs heq
    refine List.pairwise_cons.mpr
      ⟨?_, vaultLoop_pairwise_vaultOrder nc rg acct vs (hnd vs heq)⟩
    intro b _ w bk h
    simp at h

theorem pairwise_stage_le_of_const (tr : List Event) (k : Nat)
    (h : ∀ ev ∈ tr, ev.stage = k) :
    tr.Pairwise fun a b => a.stage ≤ b.stage :=
  List.pairwise_of_forall_mem_list fun a ha b hb => by rw [h a ha, h b hb]

theorem pairwise_bottomUp_of_const_ne2 (tr : List Event) (k : Nat)
    (h : ∀ ev ∈ tr, ev.stage = k) (hk : k ≠ 2) :
    tr.Pairwise bottomUpOK := by
  have hv : tr.Pairwise vaultOrderOK := by
    refine pairwise_vaultOrder_of_no_deleteVault tr ?_
    intro ev hev vn
    exact ne_deleteVault_of_stage ev (by rw [h ev hev]; exact hk) vn
  exact ((pairwise_stage_le_of_const tr k h).and hv).imp fun hab => hab

theorem bottomUp_cross (t u : List Event) (j k : Nat)
    (hj : ∀ ev ∈ t, ev.stage = j) (hk : ∀ ev ∈ u, ev.stage = k)
    (hjk : j ≤ k) (hne : j ≠ 2 ∨ k ≠ 2) :
    ∀ x ∈ t, ∀ y ∈ u, bottomUpOK x y := by
  intro x hx y hy
  refine ⟨by rw [hj x hx, hk y hy]; exact hjk, ?_⟩
  intro vn bk hxv hyb
  rcases hne with h | h
  · exact ne_deleteVault_of_stage x (by rw [hj x hx]; exact h) vn hxv
  · exact ne_deleteBackup_of_stage y (by rw [hk y hy]; exact h) vn bk hyb

theorem bottomUp_cross_append (t u w : List Event)
    (hu : ∀ x ∈ t, ∀ y ∈ u, bottomUpOK x y)
    (hw : ∀ x ∈ t, ∀ y ∈ w, bottomUpOK x y) :
    ∀ x ∈ t, ∀ y ∈ u ++ w, bottomUpOK x y := by
  intro x hx y hy
  rcases List.mem_append.mp hy with h | h
  · exact hu x hx y h
  · exact hw x hx y h

/-- C2: within one cascade on a well-formed identifier, provided the
provider lists each vault name at most once, the sequence of issued provider
calls is strictly bottom-up: every earlier/later pair of trace events
satisfies `bottomUpOK`, so every volume delete (stage 1) precedes every
backup and vault delete (stage 2), every backup delete in a vault precedes
that same vault's delete, every vault delete precedes every account delete
attempt (stage 3), and every account delete attempt precedes the
resource-group delete (stage 4); moreover the resource-group delete appears
in the trace only when an account delete attempt does, so the account is
deleted only after every nested delete already issued has completed (each
modelled call is blocking). -/
theorem C2_bottom_up_order (nc : NetAppClient) (rc : ResourceClient) (id : String)
    (hwf : 4 < (pySplit id).length)
    (hnd : ∀ vs, nc.backup_vaults_list_by_net_app_account (rgOf id) (acctOf id) = .ok vs →
      (vs.map lastSeg).Nodup) :
    (delete_netapp_resources nc rc id).1.Pairwise bottomUpOK ∧
    (Event.deleteResourceGroup ∈ (delete_netapp_resources nc rc id).1 →
      ∃ a, Event.deleteAccount a ∈ (delete_netapp_resources nc rc id).1) := by
  have hT1 := volumesStage_stage nc (rgOf id) (acctOf id)
  have hT2s := vaultsStage_stage nc (rgOf id) (acctOf id)
  have hT3 := accountStage_stage nc (rgOf id) (acctOf id)
  have hT4 : ∀ ev ∈ (resourceGroupStage rc (rgOf id)).1, ev.stage = 4 := by
    rw [resourceGroupStage_trace]
    intro ev hev
    simp at hev
    subst hev
    rfl
  have hP1 := pairwise_bottomUp_of_const_ne2 _ 1 hT1 (by decide)
  have hP2 : (vaultsStage nc (rgOf id) (acctOf id)).1.Pairwise bottomUpOK :=
    ((pairwise_stage_le_of_const _ 2 hT2s).and
      (vaultsStage_pairwise_vaultOrder nc (rgOf id) (acctOf id) hnd)).imp fun hab => hab
  have hP3 := pairwise_bottomUp_of_const_ne2 _ 3 hT3 (by decide)
  have hP4 := pairwise_bottomUp_of_const_ne2 _ 4 hT4 (by decide)
  have hC12 := bottomUp_cross _ _ 1 2 hT1 hT2s (by decide) (Or.inl (by decide))
  have hC13 := bottomUp_cross _ _ 1 3 hT1 hT3 (by decide) (Or.inl (by decide))
  have hC14 := bottomUp_cross _ _ 1 4 hT1 hT4 (by decide) (Or.inl (by decide))
  have hC23 := bottomUp_cross _ _ 2 3 hT2s hT3 (by decide) (Or.inr (by decide))
  have hC24 := bottomUp_cross _ _ 2 4 hT2s hT4 (by decide) (Or.inr (by decide))
  have hC34 := bottomUp_cross _ _ 3 4 hT3 hT4 (by decide) (Or.inr (by decide))
  rw [delete_netapp_resources, if_neg (by omega)]
  cases h1 : (volumesStage nc (rgOf id) (acctOf id)).2 with
  | error e1 =>
    refine ⟨by simpa [seqStage, h1] using hP1, ?_⟩
    intro hmem
    simp only [seqStage, h1] at hmem
    have := hT1 _ hmem
    simp [Event.stage] at this
  | ok u1 =>
    cases h2 : (vaultsStage nc (rgOf id) (acctOf id)).2 with
    | error e2 =>
      refine ⟨?_, ?_⟩
      · simp only [seqStage, h1, h2]
        exact List.pairwise_append.mpr ⟨hP1, hP2, hC12⟩
      · intro hmem
        simp only [seqStage, h1, h2] at hmem
        rcases List.mem_append.mp hmem with hm | hm
        · have := hT1 _ hm; simp [Event.stage] at this
        · have := hT2s _ hm; simp [Event.stage] at this
    | ok u2 =>
      cases h3 : (accountStage nc (rgOf id) (acctOf id)).2 with
      | error e3 =>
        refine ⟨?_, ?_⟩
        · simp only [seqStage, h1, h2, h3]
          refine List.pairwise_append.mpr ⟨hP1, ?_, bottomUp_cross_append _ _ _ hC12 hC13⟩
          exact List.pairwise_append.mpr ⟨hP2, hP3, hC23⟩
        · intro hmem
          simp only [seqStage, h1, h2, h3] at hmem
          rcases List.mem_append.mp hmem with hm | hm
          · have := hT1 _ hm; simp [Event.stage] at this
          · rcases List.mem_append.mp hm with hm2 | hm2
            · have := hT2s _ hm2; simp [Event.stage] at this
            · have := hT3 _ hm2; simp [Event.stage] at this
      | ok u3 =>
        refine ⟨?_, ?_⟩
        · simp only [seqStage, h1, h2, h3]
          refine List.pairwise_append.mpr ⟨hP1, ?_,
            bottomUp_cross_append _ _ _ hC12 (bottomUp_cross_append _ _ _ hC13 hC14)⟩
          refine List.pairwise_append.mpr ⟨hP2, ?_,
            bottomUp_cross_append _ _ _ hC23 hC24⟩
          exact List.pairwise_append.mpr ⟨hP3, hP4, hC34⟩
        · intro _
          refine ⟨0, ?_⟩
          simp only [seqStage, h1, h2, h3, List.mem_append]
          exact Or.inr (Or.inr (Or.inl (accountStage_head_mem nc (rgOf id) (acctOf id))))

theorem C2_bottom_up_order_witness :
    4 < (pySplit goodId).length ∧
    (∀ vs, okNC.backup_vaults_list_by_net_app_account (rgOf goodId) (acctOf goodId) =
        .ok vs → (vs.map lastSeg).Nodup) ∧
    ((delete_netapp_resources okNC okRC goodId).1.Pairwise bottomUpOK ∧
     (Event.deleteResourceGroup ∈ (delete_netapp_resources okNC okRC goodId).1 →
       ∃ a, Event.deleteAccount a ∈ (delete_netapp_resources okNC okRC goodId).1)) := by
  have hnd : ∀ vs, okNC.backup_vaults_list_by_net_app_account (rgOf goodId)
      (acctOf goodId) = .ok vs → (vs.map lastSeg).Nodup := by
    intro vs h
    have hv : vs = ["acct1/vault1"] := by
      have : (Except.ok ["acct1/vault1"] : Except PyErr (List String)) = .ok vs := h
      simpa using this.symm
    subst hv
    decide
  exact ⟨by decide, hnd, C2_bottom_up_order okNC okRC goodId (by decide) hnd⟩

end NetAppDeleter
